import Mathlib

/-!
Verification of the `hs-bindgen-types` crate
(`src/hs-bindgen-attribute/hs-bindgen-types/src/lib.rs`).

The crate's core is:
* the `HsType` enum of Haskell C-FFI types,
* its `Display` rendering (`render` below),
* its `FromStr` parser (`fromStr` below), including the `ArrowIter`
  scanner that splits a `FunPtr` body on top-level `->` tokens,
* the `quote` projection to the matching Rust FFI type, and
* the `ReprHs` capability lookup (`reprHs` below), whose `long` entries
  are selected by a `cfg_if!` build-time conditional.

Rust strings are modelled as `List Char` together with an explicit
UTF-8 byte length for every character, so that the byte-index slicing
done by `from_str` (`&s[..1]`, `&s[..2]`, `&s[..3]`, `&s[..6]`) can be
modelled exactly: slicing at a byte index that is not a character
boundary panics in Rust, which the model expresses as `Option.none`.
All fallible/panicking computations return `Option`, with `none`
standing for a Rust panic.
-/

namespace HsBindgen

/-- A Rust `&str`, as its sequence of Unicode scalar values. -/
abbrev RStr := List Char

/-- `char::len_utf8`: number of bytes of the UTF-8 encoding of `c`. -/
def lenUtf8 (c : Char) : Nat :=
  if c.val < 0x80 then 1
  else if c.val < 0x800 then 2
  else if c.val < 0x10000 then 3
  else 4

/-- `str::len`: length in bytes. -/
def byteLen (s : RStr) : Nat := (s.map lenUtf8).sum

/-- `char::is_whitespace`: the Unicode `White_Space` property. -/
def isRustWs (c : Char) : Bool :=
  (0x9 ≤ c.val && c.val ≤ 0xD) || c.val = 0x20 || c.val = 0x85 || c.val = 0xA0 ||
  c.val = 0x1680 || (0x2000 ≤ c.val && c.val ≤ 0x200A) ||
  c.val = 0x2028 || c.val = 0x2029 || c.val = 0x202F || c.val = 0x205F || c.val = 0x3000

/-- `str::trim_start`. -/
def trimLeft (s : RStr) : RStr := s.dropWhile isRustWs

/-- `str::trim_end`. -/
def trimRight (s : RStr) : RStr := (s.reverse.dropWhile isRustWs).reverse

/-- `str::trim`: drop whitespace from both ends. -/
def trim (s : RStr) : RStr := trimRight (trimLeft s)

/-- Splitting `s` at byte index `k`: `(&s[..k], &s[k..])`.  Returns `none`
(a Rust panic) when `k` is out of bounds or not a character boundary. -/
def sliceAt : RStr → Nat → Option (RStr × RStr)
  | s, 0 => some ([], s)
  | [], _ + 1 => none
  | c :: rest, k + 1 =>
    if lenUtf8 c ≤ k + 1 then
      (sliceAt rest (k + 1 - lenUtf8 c)).map (fun p => (c :: p.1, p.2))
    else none

/-- `str::strip_suffix(')')`. -/
def stripSuffixParen (s : RStr) : Option RStr :=
  match s.getLast? with
  | some ')' => some s.dropLast
  | _ => none

/-- The `HsType` enum.  The Rust constructor `IO(Box<HsType>)` is named
`Io` here (`IO` is not usable as a Lean field name in this development);
`FunPtr(Vec<HsType>)` holds its arguments as a `List`. -/
inductive HsType where
  | CInt
  | CChar
  | CSChar
  | CUChar
  | CShort
  | CUShort
  | CUInt
  | CLong
  | CULong
  | CLLong
  | CULLong
  | CBool
  | CString
  | CDouble
  | CFloat
  | Empty
  | Ptr (x : HsType)
  | Io (x : HsType)
  | FunPtr (types : List HsType)

/-- The `Error` enum of `from_str`.  `UnsupportedHsType` carries the
offending (trimmed) text. -/
inductive Error where
  | UnsupportedHsType (s : RStr)
  | UnmatchedParenthesis
  | FunPtrWithoutTypeArgument
deriving DecidableEq

/-- `Vec<String>::join(" -> ")` as used by `Display` for `FunPtr`. -/
def joinArrow : List RStr → RStr
  | [] => []
  | [x] => x
  | x :: xs => x ++ (" -> ".toList ++ joinArrow xs)

mutual

/-- `impl Display for HsType`: each variant's exact textual form;
`Ptr (x)`, `IO (x)`, and `FunPtr(a -> b -> c)` for the recursive ones. -/
def render : HsType → RStr
  | HsType.CBool => "CBool".toList
  | HsType.CChar => "CChar".toList
  | HsType.CDouble => "CDouble".toList
  | HsType.CFloat => "CFloat".toList
  | HsType.CInt => "CInt".toList
  | HsType.CLLong => "CLLong".toList
  | HsType.CLong => "CLong".toList
  | HsType.CSChar => "CSChar".toList
  | HsType.CShort => "CShort".toList
  | HsType.CString => "CString".toList
  | HsType.CUChar => "CUChar".toList
  | HsType.CUInt => "CUInt".toList
  | HsType.CULLong => "CULLong".toList
  | HsType.CULong => "CULong".toList
  | HsType.CUShort => "CUShort".toList
  | HsType.Empty => "()".toList
  | HsType.Ptr x => "Ptr (".toList ++ render x ++ [')']
  | HsType.Io x => "IO (".toList ++ render x ++ [')']
  | HsType.FunPtr types => "FunPtr(".toList ++ joinArrow (renderList types) ++ [')']

/-- `types.iter().map(|arg| format!("{arg}")).collect()`. -/
def renderList : List HsType → List RStr
  | [] => []
  | t :: ts => render t :: renderList ts

end

mutual

/-- A size measure on `HsType`, used for strong induction. -/
def hsSize : HsType → Nat
  | HsType.Ptr x => hsSize x + 1
  | HsType.Io x => hsSize x + 1
  | HsType.FunPtr ts => hsSizeList ts + 1
  | _ => 1

def hsSizeList : List HsType → Nat
  | [] => 0
  | t :: ts => hsSize t + hsSizeList ts + 1

end

/-! ## The `ArrowIter` scanner

`ArrowIter::next` walks the remaining text character by character,
keeping a parenthesis-nesting counter `open` (`+1` per `'('`, `-1` per
`')'`), and splits at the first `"->"` found while the counter is `0`.
`arrowSplit o s` is the body of the `for` loop: it returns the pair
`(matched, new_remaining)`.  All byte offsets used by the Rust loop are
character boundaries, so no slicing panic is possible here, and since
`'-'` and `'>'` are single-byte characters the byte-level
`starts_with("->")` test is exactly a two-character test. -/

def arrowSplit (o : Int) : RStr → RStr × RStr
  | [] => ([], [])
  | c :: rest =>
    if c = '(' then
      let p := arrowSplit (o + 1) rest
      (c :: p.1, p.2)
    else if c = ')' then
      let p := arrowSplit (o - 1) rest
      (c :: p.1, p.2)
    else if o = 0 ∧ (c :: rest).take 2 = ['-', '>'] then
      -- `matched = &remaining[..offset]; offset += "->".len(); break`
      ([], rest.drop 1)
    else
      let p := arrowSplit o rest
      (c :: p.1, p.2)

/-- One `ArrowIter::next` call: `None` once the remaining text is empty
or whitespace-only, otherwise the matched slice and the new remainder. -/
def arrowNext (remaining : RStr) : Option (RStr × RStr) :=
  if trim remaining = [] then none
  else some (arrowSplit 0 remaining)

/-- Fuel-indexed collection of every item the iterator yields. -/
def arrowItemsF : Nat → RStr → List RStr
  | 0, _ => []
  | n + 1, s =>
    if trim s = [] then []
    else
      let p := arrowSplit 0 s
      p.1 :: arrowItemsF n p.2

/-- The full (finite) sequence of slices `ArrowIter` yields on `s`.
`s.length + 1` fuel always suffices (`arrowItemsF_stable`). -/
def arrowItems (s : RStr) : List RStr := arrowItemsF (s.length + 1) s

/-! ## The `FromStr` parser

`fromStr` returns `none` for a Rust panic (byte slicing at a
non-character boundary), `some (Except.error e)` for a returned
`Error`, and `some (Except.ok t)` for success. -/

/-- The final `match` of `from_str` over the closed primitive-name set;
`s` is the trimmed input. -/
def primOf (s : RStr) : Option (Except Error HsType) :=
  if s = "CBool".toList then some (Except.ok HsType.CBool)
  else if s = "CChar".toList then some (Except.ok HsType.CChar)
  else if s = "CDouble".toList then some (Except.ok HsType.CDouble)
  else if s = "CFloat".toList then some (Except.ok HsType.CFloat)
  else if s = "CInt".toList then some (Except.ok HsType.CInt)
  else if s = "CLLong".toList then some (Except.ok HsType.CLLong)
  else if s = "CLong".toList then some (Except.ok HsType.CLong)
  else if s = "CSChar".toList then some (Except.ok HsType.CSChar)
  else if s = "CShort".toList then some (Except.ok HsType.CShort)
  else if s = "CString".toList then some (Except.ok HsType.CString)
  else if s = "CUChar".toList then some (Except.ok HsType.CUChar)
  else if s = "CUInt".toList then some (Except.ok HsType.CUInt)
  else if s = "CULLong".toList then some (Except.ok HsType.CULLong)
  else if s = "CULong".toList then some (Except.ok HsType.CULong)
  else if s = "CUShort".toList then some (Except.ok HsType.CUShort)
  else some (Except.error (Error.UnsupportedHsType s))

/-- `.collect::<Result<Vec<_>, _>>()` over panic-wrapped parse results:
short-circuits at the first `Error` (later results are never consumed by
the lazy Rust iterator, so a later panic or error is irrelevant). -/
def collectResults : List (Option (Except Error HsType)) → Option (Except Error (List HsType))
  | [] => some (Except.ok [])
  | none :: _ => none
  | some (Except.error e) :: _ => some (Except.error e)
  | some (Except.ok t) :: rest =>
    match collectResults rest with
    | none => none
    | some (Except.error e) => some (Except.error e)
    | some (Except.ok ts) => some (Except.ok (t :: ts))

/-- The tail of the `FunPtr` branch: run `ArrowIter` on `t`, parse each
slice with `rec`, fail with `FunPtrWithoutTypeArgument` on zero items. -/
def funBody (rec : RStr → Option (Except Error HsType)) (t : RStr) :
    Option (Except Error HsType) :=
  match collectResults ((arrowItems t).map rec) with
  | none => none
  | some (Except.error e) => some (Except.error e)
  | some (Except.ok types) =>
    if types.isEmpty then some (Except.error Error.FunPtrWithoutTypeArgument)
    else some (Except.ok (HsType.FunPtr types))

/-- The `FunPtr` branch after the prefix `"FunPtr"` was recognized:
`r` is `&s[6..]`; trim it, strip one optional parenthesis layer
(`UnmatchedParenthesis` when `(`-led but not `)`-terminated), then
`funBody`. -/
def funPtrArm (rec : RStr → Option (Except Error HsType)) (r : RStr) :
    Option (Except Error HsType) :=
  match trim r with
  | '(' :: t1 =>
    match stripSuffixParen t1 with
    | none => some (Except.error Error.UnmatchedParenthesis)
    | some inner => funBody rec inner
  | t => funBody rec t

/-- The body of `from_str` on the already-trimmed input `s`, with `rec`
standing for the recursive calls.  Mirrors the `if`/`else if` chain:
`"()"`, leading `"("`, `"IO"`, `"Ptr"`, `"FunPtr"`, then the
primitive-name `match`.  Each `&s[..k]` byte slice may panic (`none`). -/
def fromStrCore (rec : RStr → Option (Except Error HsType)) (s : RStr) :
    Option (Except Error HsType) :=
  if s = "()".toList then some (Except.ok HsType.Empty)
  else if s = [] then primOf s
  else match sliceAt s 1 with
    | none => none
    | some p1 =>
      if p1.1 = "(".toList then
        match stripSuffixParen p1.2 with
        | none => some (Except.error Error.UnmatchedParenthesis)
        | some inner => rec inner
      else if byteLen s < 2 then primOf s
      else match sliceAt s 2 with
        | none => none
        | some p2 =>
          if p2.1 = "IO".toList then (rec p2.2).map (Except.map HsType.Io)
          else if byteLen s < 3 then primOf s
          else match sliceAt s 3 with
            | none => none
            | some p3 =>
              if p3.1 = "Ptr".toList then (rec p3.2).map (Except.map HsType.Ptr)
              else if byteLen s < 6 then primOf s
              else match sliceAt s 6 with
                | none => none
                | some p6 =>
                  if p6.1 = "FunPtr".toList then funPtrArm rec p6.2
                  else primOf s

/-- `from_str` trims its input first. -/
def fromStrBody (rec : RStr → Option (Except Error HsType)) (s0 : RStr) :
    Option (Except Error HsType) :=
  fromStrCore rec (trim s0)

/-- Fuel-indexed `from_str`; the fuel only bounds the recursion depth and
`s.length + 1` always suffices (`fromStrF_stable`). -/
def fromStrF : Nat → RStr → Option (Except Error HsType)
  | 0, _ => none
  | n + 1, s0 => fromStrBody (fromStrF n) s0

/-- `HsType::from_str`. -/
def fromStr (s : RStr) : Option (Except Error HsType) :=
  fromStrF (s.length + 1) s

/-! ## The `quote` projection

The `proc_macro2::TokenStream` fragments produced by `quote` are
modelled as an abstract syntax of the Rust types the source emits. -/

/-- The Rust type fragments `HsType::quote` can produce. -/
inductive RustType where
  | bool
  | c_char
  | c_double
  | c_float
  | c_int
  | c_longlong
  | c_long
  | c_schar
  | c_short
  | c_uchar
  | c_uint
  | c_ulonglong
  | c_ulong
  | c_ushort
  | unit
  | constPtr (t : RustType)
  | funPtr (args : List RustType) (ret : RustType)

mutual

/-- `HsType::quote`.  `none` is the panic of `types.last().unwrap()` on
an empty `FunPtr` list. -/
def quote : HsType → Option RustType
  | HsType.CBool => some RustType.bool
  | HsType.CChar => some RustType.c_char
  | HsType.CDouble => some RustType.c_double
  | HsType.CFloat => some RustType.c_float
  | HsType.CInt => some RustType.c_int
  | HsType.CLLong => some RustType.c_longlong
  | HsType.CLong => some RustType.c_long
  | HsType.CSChar => some RustType.c_schar
  | HsType.CShort => some RustType.c_short
  -- `HsType::CString => HsType::Ptr(Box::new(HsType::CChar)).quote()`;
  -- that call returns `*const c_char`, written out here so the
  -- recursion stays structural
  | HsType.CString => some (RustType.constPtr RustType.c_char)
  | HsType.CUChar => some RustType.c_uchar
  | HsType.CUInt => some RustType.c_uint
  | HsType.CULLong => some RustType.c_ulonglong
  | HsType.CULong => some RustType.c_ulong
  | HsType.CUShort => some RustType.c_ushort
  | HsType.Empty => some RustType.unit
  | HsType.Ptr x => (quote x).map RustType.constPtr
  | HsType.Io x => quote x
  -- `ret = types.last().unwrap().quote(); args = types[..len-1].map(quote)`:
  -- organized here as quoting every element and then splitting off the
  -- last, which produces the same value (and the same panics)
  | HsType.FunPtr types =>
    match quoteList types with
    | none => none
    | some qs =>
      match qs.getLast? with
      | none => none
      | some ret => some (RustType.funPtr qs.dropLast ret)

def quoteList : List HsType → Option (List RustType)
  | [] => some []
  | t :: ts =>
    match quote t with
    | none => none
    | some q =>
      match quoteList ts with
      | none => none
      | some qs => some (q :: qs)

end

/-! ## Structural predicates on `HsType` -/

mutual

/-- Every `FunPtr` node carries at least one element. -/
def wfFun : HsType → Bool
  | HsType.Ptr x => wfFun x
  | HsType.Io x => wfFun x
  | HsType.FunPtr ts => !ts.isEmpty && wfFunList ts
  | _ => true

def wfFunList : List HsType → Bool
  | [] => true
  | t :: ts => wfFun t && wfFunList ts

end

mutual

/-- The value does not use the `CString` (`TextHandle`) sugar. -/
def noCString : HsType → Bool
  | HsType.CString => false
  | HsType.Ptr x => noCString x
  | HsType.Io x => noCString x
  | HsType.FunPtr ts => noCStringList ts
  | _ => true

def noCStringList : List HsType → Bool
  | [] => true
  | t :: ts => noCString t && noCStringList ts

end

/-! ## The `ReprHs` capability lookup

`repr_hs!` generates one `impl ReprHs for T` per table entry; the
`cfg_if!` block keys the `long`-family entries on the build target:
`c_long`/`c_ulong` on 64-bit non-Windows targets, `c_longlong`/
`c_ulonglong` everywhere else.  A build target is modelled by its two
relevant flags, and the set of generated impls as a partial lookup from
the Rust type-descriptor the impl is written for (`none` = no impl
generated for that descriptor on that target).  The lookup depends only
on the target value, never on run-time data: the selection is a
build-time constant. -/

/-- The Rust types that receive `ReprHs` impls in the source. -/
inductive RustDesc where
  | c_char
  | c_double
  | c_float
  | c_int
  | c_short
  | c_uchar
  | c_uint
  | c_ushort
  | unit
  | c_long
  | c_ulong
  | c_longlong
  | c_ulonglong
  | constPtr (t : RustDesc)
  | mutPtr (t : RustDesc)
  | vec (t : RustDesc)
  | arrayRef (t : RustDesc) (n : Nat)
  | cstring
  | cstrRef
  | string
  | strRef
deriving DecidableEq

/-- The `cfg` flags of a build target that the source consults:
`target_pointer_width = "64"` and `windows`. -/
structure Target where
  ptrWidth64 : Bool
  windows : Bool
deriving DecidableEq

/-- `<T as ReprHs>::into()`, as the partial map from descriptors to
`HsType` defined by the generated impls on target `tgt`. -/
def reprHs (tgt : Target) : RustDesc → Option HsType
  | RustDesc.c_char => some HsType.CChar
  | RustDesc.c_double => some HsType.CDouble
  | RustDesc.c_float => some HsType.CFloat
  | RustDesc.c_int => some HsType.CInt
  | RustDesc.c_short => some HsType.CShort
  | RustDesc.c_uchar => some HsType.CUChar
  | RustDesc.c_uint => some HsType.CUInt
  | RustDesc.c_ushort => some HsType.CUShort
  | RustDesc.unit => some HsType.Empty
  | RustDesc.c_long =>
    if tgt.ptrWidth64 && !tgt.windows then some HsType.CLong else none
  | RustDesc.c_ulong =>
    if tgt.ptrWidth64 && !tgt.windows then some HsType.CULong else none
  | RustDesc.c_longlong =>
    if tgt.ptrWidth64 && !tgt.windows then none else some HsType.CLLong
  | RustDesc.c_ulonglong =>
    if tgt.ptrWidth64 && !tgt.windows then none else some HsType.CULLong
  | RustDesc.constPtr t => (reprHs tgt t).map HsType.Ptr
  | RustDesc.mutPtr t => (reprHs tgt t).map HsType.Ptr
  | RustDesc.vec t => (reprHs tgt t).map HsType.Ptr
  | RustDesc.arrayRef t _ => (reprHs tgt t).map HsType.Ptr
  | RustDesc.cstring => some HsType.CString
  | RustDesc.cstrRef => some HsType.CString
  | RustDesc.string => some HsType.CString
  | RustDesc.strRef => some HsType.CString



/-! ## Specification-side definitions

`depthDelta` and `splitFree` describe positions in a string in terms of
the same parenthesis-nesting count the scanner maintains: `depthDelta s`
is the net nesting change across `s`, and `splitFree o s` says that a
scan of `s` started at depth `o` meets no split point (no `"->"` whose
first character sits at depth `0`). -/

/-- Net parenthesis-nesting change across `s` (`+1` per `'('`, `-1` per `')'`). -/
def depthDelta : RStr → Int
  | [] => 0
  | c :: rest => (if c = '(' then 1 else if c = ')' then -1 else 0) + depthDelta rest

/-- A scan of `s` starting at depth `o` never meets the scanner's split
condition. -/
def splitFree (o : Int) : RStr → Bool
  | [] => true
  | c :: rest =>
    if c = '(' then splitFree (o + 1) rest
    else if c = ')' then splitFree (o - 1) rest
    else if o = 0 ∧ (c :: rest).take 2 = ['-', '>'] then false
    else splitFree o rest

/-- The bundle of facts about a rendered type that the parser proofs
need: nonempty, trim-invariant, parenthesis-balanced, not starting with
`'>'`, and scannable from any nonnegative depth without a split. -/
def RenderGood (x : RStr) : Prop :=
  x ≠ [] ∧ trim x = x ∧ depthDelta x = 0 ∧ x.head? ≠ some '>' ∧
    ∀ o : Int, 0 ≤ o → splitFree o x = true

/-! ## Sanity checks: concrete evaluations of the executable model -/

example : render (HsType.FunPtr [HsType.CInt, HsType.Ptr HsType.CChar]) =
    "FunPtr(CInt -> Ptr (CChar))".toList := by rfl

example : render (HsType.Io HsType.Empty) = "IO (())".toList := by rfl

example : fromStr "CInt".toList = some (Except.ok HsType.CInt) := by rfl

example : fromStr " Ptr CChar ".toList =
    some (Except.ok (HsType.Ptr HsType.CChar)) := by rfl

example : fromStr "IO (CInt)".toList =
    some (Except.ok (HsType.Io HsType.CInt)) := by rfl

example : fromStr "FunPtr (CInt -> CInt -> CDouble)".toList =
    some (Except.ok (HsType.FunPtr [HsType.CInt, HsType.CInt, HsType.CDouble])) := by rfl

example : fromStr "FunPtr (FunPtr(CInt -> CInt) -> CDouble)".toList =
    some (Except.ok (HsType.FunPtr
      [HsType.FunPtr [HsType.CInt, HsType.CInt], HsType.CDouble])) := by rfl

example : fromStr "Foo".toList =
    some (Except.error (Error.UnsupportedHsType "Foo".toList)) := by rfl

example : fromStr "FunPtr".toList =
    some (Except.error Error.FunPtrWithoutTypeArgument) := by rfl

example : fromStr "FunPtr ()".toList =
    some (Except.error Error.FunPtrWithoutTypeArgument) := by rfl

example : fromStr "(CInt".toList =
    some (Except.error Error.UnmatchedParenthesis) := by rfl

example : fromStr "CInt)".toList =
    some (Except.error (Error.UnsupportedHsType "CInt)".toList)) := by rfl

example : fromStr ['a', 'é'] = none := by rfl

example : fromStr ['é'] = none := by rfl

example : fromStr (render (HsType.FunPtr [])) =
    some (Except.error Error.FunPtrWithoutTypeArgument) := by rfl

example : fromStr "FunPtr CInt".toList =
    some (Except.ok (HsType.FunPtr [HsType.CInt])) := by rfl

example : fromStr "FunPtr (CInt)".toList =
    some (Except.ok (HsType.FunPtr [HsType.CInt])) := by rfl

example : quote (HsType.FunPtr [HsType.CInt, HsType.Ptr HsType.CChar, HsType.CDouble]) =
    some (RustType.funPtr [RustType.c_int, RustType.constPtr RustType.c_char]
      RustType.c_double) := by rfl

example : quote (HsType.FunPtr []) = none := by rfl

example : quote HsType.CString = quote (HsType.Ptr HsType.CChar) := by rfl

/-! ## Basic facts about the string model -/

theorem byteLen_cons (c : Char) (s : RStr) : byteLen (c :: s) = lenUtf8 c + byteLen s := by
  simp [byteLen]

theorem sliceAt_append (s : RStr) :
    ∀ (k : Nat) (p : RStr × RStr), sliceAt s k = some p → p.1 ++ p.2 = s := by
  induction s with
  | nil =>
    intro k p h
    cases k with
    | zero => simp [sliceAt] at h; simp [← h]
    | succ k => simp [sliceAt] at h
  | cons c rest ih =>
    intro k p h
    cases k with
    | zero => simp [sliceAt] at h; simp [← h]
    | succ k =>
      simp only [sliceAt] at h
      split at h
      · rw [Option.map_eq_some'] at h
        obtain ⟨q, hq, hp⟩ := h
        have := ih _ _ hq
        simp [← hp, this]
      · exact absurd h (by simp)

theorem trimLeft_length_le (s : RStr) : (trimLeft s).length ≤ s.length :=
  (List.dropWhile_sublist _).length_le

theorem trimRight_length_le (s : RStr) : (trimRight s).length ≤ s.length := by
  have := (List.dropWhile_sublist (l := s.reverse) (p := isRustWs)).length_le
  simpa [trimRight] using this

theorem trim_length_le (s : RStr) : (trim s).length ≤ s.length :=
  le_trans (trimRight_length_le _) (trimLeft_length_le s)

theorem trimRight_eq_nil_iff (s : RStr) : trimRight s = [] ↔ s.all isRustWs = true := by
  simp [trimRight, List.dropWhile_eq_nil_iff, List.all_eq_true]

theorem trim_eq_nil_iff (s : RStr) : trim s = [] ↔ s.all isRustWs = true := by
  induction s with
  | nil => simp [trim, trimLeft, trimRight]
  | cons c s ih =>
    by_cases hc : isRustWs c
    · simpa [trim, trimLeft, List.dropWhile_cons, hc] using ih
    · have h1 : trimLeft (c :: s) = c :: s := by
        simp [trimLeft, List.dropWhile_cons, hc]
      rw [trim, h1, trimRight_eq_nil_iff]

theorem dropWhile_ws_front (p l : RStr) (hp : p.all isRustWs = true) :
    (p ++ l).dropWhile isRustWs = l.dropWhile isRustWs := by
  induction p with
  | nil => rfl
  | cons c q ih =>
    simp only [List.all_cons, Bool.and_eq_true] at hp
    simpa [List.dropWhile_cons, hp.1] using ih hp.2

theorem trim_ws_front (p s : RStr) (hp : p.all isRustWs = true) :
    trim (p ++ s) = trim s := by
  simp [trim, trimLeft, dropWhile_ws_front p s hp]

theorem trimRight_ws_suffix (s q : RStr) (hq : q.all isRustWs = true) :
    trimRight (s ++ q) = trimRight s := by
  have hq' : q.reverse.all isRustWs = true := by simpa using hq
  simp [trimRight, dropWhile_ws_front q.reverse s.reverse hq']

theorem trim_ws_suffix (s q : RStr) (hq : q.all isRustWs = true) :
    trim (s ++ q) = trim s := by
  by_cases h : trimLeft s = []
  · have hs : s.all isRustWs = true := by
      simpa [trimLeft, List.dropWhile_eq_nil_iff, List.all_eq_true] using h
    have h1 : trim (s ++ q) = [] := by
      rw [trim_eq_nil_iff]
      simp [List.all_append, hs, hq]
    have h2 : trim s = [] := by rw [trim_eq_nil_iff]; exact hs
    rw [h1, h2]
  · have : trimLeft (s ++ q) = trimLeft s ++ q := by
      simp only [trimLeft, List.dropWhile_append]
      rw [if_neg]
      simpa [List.isEmpty_iff, trimLeft] using h
    rw [trim, this, trimRight_ws_suffix _ _ hq, trim]

theorem trimLeft_cons_of_neg (c : Char) (s : RStr) (hc : isRustWs c = false) :
    trimLeft (c :: s) = c :: s := by
  simp [trimLeft, List.dropWhile_cons, hc]

theorem trimRight_concat_of_neg (l : RStr) (d : Char) (hd : isRustWs d = false) :
    trimRight (l ++ [d]) = l ++ [d] := by
  simp [trimRight, List.dropWhile_cons, hd]

theorem trim_cons_concat (c d : Char) (m : RStr)
    (hc : isRustWs c = false) (hd : isRustWs d = false) :
    trim (c :: (m ++ [d])) = c :: (m ++ [d]) := by
  rw [trim, trimLeft_cons_of_neg _ _ hc,
    show c :: (m ++ [d]) = (c :: m) ++ [d] from rfl,
    trimRight_concat_of_neg _ _ hd]

theorem stripSuffixParen_concat (l : RStr) : stripSuffixParen (l ++ [')']) = some l := by
  simp [stripSuffixParen]

theorem stripSuffixParen_some {s i : RStr} (h : stripSuffixParen s = some i) :
    s = i ++ [')'] := by
  unfold stripSuffixParen at h
  split at h
  · next heq =>
    cases h
    rcases List.eq_nil_or_concat s with rfl | ⟨l, a, rfl⟩
    · simp at heq
    · simp only [List.concat_eq_append, List.getLast?_concat, Option.some.injEq] at heq ⊢
      subst heq
      rw [List.dropLast_concat]
  · cases h

/-! ## Facts about the scanner -/

theorem depthDelta_cons (c : Char) (a : RStr) :
    depthDelta (c :: a) =
      (if c = '(' then 1 else if c = ')' then -1 else 0) + depthDelta a := rfl

theorem depthDelta_append (a b : RStr) :
    depthDelta (a ++ b) = depthDelta a + depthDelta b := by
  induction a with
  | nil => simp [depthDelta]
  | cons c a ih =>
    rw [List.cons_append, depthDelta_cons, depthDelta_cons, ih]
    omega

theorem ws_ne_special {c : Char} (h : isRustWs c = true) :
    c ≠ '(' ∧ c ≠ ')' ∧ c ≠ '-' := by
  refine ⟨?_, ?_, ?_⟩ <;> rintro rfl <;> revert h <;> decide

theorem depthDelta_of_allWs (p : RStr) (hp : p.all isRustWs = true) :
    depthDelta p = 0 := by
  induction p with
  | nil => rfl
  | cons c q ih =>
    simp only [List.all_cons, Bool.and_eq_true] at hp
    obtain ⟨h1, h2, _⟩ := ws_ne_special hp.1
    simp [depthDelta, h1, h2, ih hp.2]

theorem splitFree_of_allWs (p : RStr) (hp : p.all isRustWs = true) (o : Int) :
    splitFree o p = true := by
  induction p generalizing o with
  | nil => rfl
  | cons c q ih =>
    simp only [List.all_cons, Bool.and_eq_true] at hp
    obtain ⟨h1, h2, h3⟩ := ws_ne_special hp.1
    have hcond : ¬(o = 0 ∧ (c :: q).take 2 = ['-', '>']) := by
      rintro ⟨-, htk⟩
      simp only [List.take_succ_cons, List.cons.injEq] at htk
      exact h3 htk.1
    simp only [splitFree, if_neg h1, if_neg h2, if_neg hcond]
    exact ih hp.2 o

theorem splitFree_append (a b : RStr) (hb : b.head? ≠ some '>') :
    ∀ o : Int, splitFree o a = true → splitFree (o + depthDelta a) b = true →
    splitFree o (a ++ b) = true := by
  induction a with
  | nil =>
    intro o _ hab
    simpa [depthDelta] using hab
  | cons c a ih =>
    intro o ha hab
    by_cases h1 : c = '('
    · subst h1
      rw [List.cons_append,
        show splitFree o ('(' :: (a ++ b)) = splitFree (o + 1) (a ++ b) from by
          simp [splitFree]]
      rw [show splitFree o ('(' :: a) = splitFree (o + 1) a from by
        simp [splitFree]] at ha
      refine ih (o + 1) ha ?_
      have hd1 : depthDelta ('(' :: a) = 1 + depthDelta a := by
        rw [depthDelta_cons]; norm_num
      have hdd : o + depthDelta ('(' :: a) = o + 1 + depthDelta a := by
        rw [hd1]; ring
      rwa [hdd] at hab
    · by_cases h2 : c = ')'
      · subst h2
        rw [List.cons_append,
          show splitFree o (')' :: (a ++ b)) = splitFree (o - 1) (a ++ b) from by
            rw [splitFree, if_neg h1, if_pos rfl]]
        rw [show splitFree o (')' :: a) = splitFree (o - 1) a from by
          rw [splitFree, if_neg h1, if_pos rfl]] at ha
        refine ih (o - 1) ha ?_
        have hd1 : depthDelta (')' :: a) = -1 + depthDelta a := by
          rw [depthDelta_cons, if_neg h1, if_pos rfl]
        have hdd : o + depthDelta (')' :: a) = o - 1 + depthDelta a := by
          rw [hd1]; ring
        rwa [hdd] at hab
      · simp only [splitFree, if_neg h1, if_neg h2] at ha
        split at ha
        · cases ha
        · next hcondA =>
          have hcond : ¬(o = 0 ∧ (c :: (a ++ b)).take 2 = ['-', '>']) := by
            rintro ⟨ho, htk⟩
            cases a with
            | nil =>
              simp only [List.nil_append, List.take_succ_cons, List.cons.injEq] at htk
              rw [List.take_one] at htk
              apply hb
              cases hh : b.head? with
              | none => rw [hh] at htk; exact absurd htk.2 (by simp)
              | some x =>
                rw [hh] at htk
                have hx : x = '>' := by simpa using htk.2
                rw [hx]
            | cons x a' =>
              simp only [List.cons_append, List.take_succ_cons, List.cons.injEq] at htk
              refine hcondA ⟨ho, ?_⟩
              simp only [List.take_succ_cons, List.cons.injEq]
              refine ⟨htk.1, ?_⟩
              simpa using htk.2.1
          rw [List.cons_append,
            show splitFree o (c :: (a ++ b)) =
              if o = 0 ∧ (c :: (a ++ b)).take 2 = ['-', '>'] then false
              else splitFree o (a ++ b) from by
                simp [splitFree, if_neg h1, if_neg h2]]
          rw [if_neg (by simpa using hcond)]
          refine ih o ha ?_
          have hdd : o + depthDelta (c :: a) = o + depthDelta a := by
            rw [depthDelta_cons, if_neg h1, if_neg h2]
            ring
          rwa [hdd] at hab

theorem arrowSplit_cons_open (o : Int) (rest : RStr) :
    arrowSplit o ('(' :: rest) =
      ('(' :: (arrowSplit (o + 1) rest).1, (arrowSplit (o + 1) rest).2) := by
  rw [arrowSplit, if_pos rfl]

theorem arrowSplit_cons_close (o : Int) (rest : RStr) :
    arrowSplit o (')' :: rest) =
      (')' :: (arrowSplit (o - 1) rest).1, (arrowSplit (o - 1) rest).2) := by
  rw [arrowSplit, if_neg (by decide), if_pos rfl]

theorem arrowSplit_cons_other (o : Int) (c : Char) (rest : RStr)
    (h1 : c ≠ '(') (h2 : c ≠ ')')
    (h3 : ¬(o = 0 ∧ (c :: rest).take 2 = ['-', '>'])) :
    arrowSplit o (c :: rest) =
      (c :: (arrowSplit o rest).1, (arrowSplit o rest).2) := by
  rw [arrowSplit, if_neg h1, if_neg h2, if_neg h3]

theorem arrowSplit_cons_hit (o : Int) (c : Char) (rest : RStr)
    (h1 : c ≠ '(') (h2 : c ≠ ')')
    (h3 : o = 0 ∧ (c :: rest).take 2 = ['-', '>']) :
    arrowSplit o (c :: rest) = ([], rest.drop 1) := by
  rw [arrowSplit, if_neg h1, if_neg h2, if_pos h3]

theorem arrowSplit_noSplit : ∀ (o : Int) (s : RStr), splitFree o s = true →
    arrowSplit o s = (s, []) := by
  intro o s
  induction s generalizing o with
  | nil => intro _; rfl
  | cons c rest ih =>
    intro h
    by_cases h1 : c = '('
    · subst h1
      rw [show splitFree o ('(' :: rest) = splitFree (o + 1) rest from by
        rw [splitFree, if_pos rfl]] at h
      rw [arrowSplit_cons_open, ih (o + 1) h]
    · by_cases h2 : c = ')'
      · subst h2
        rw [show splitFree o (')' :: rest) = splitFree (o - 1) rest from by
          rw [splitFree, if_neg h1, if_pos rfl]] at h
        rw [arrowSplit_cons_close, ih (o - 1) h]
      · rw [splitFree, if_neg h1, if_neg h2] at h
        split at h
        · cases h
        · next h3 =>
          rw [arrowSplit_cons_other o c rest h1 h2 h3, ih o h]

theorem arrowSplit_calc : ∀ (s : RStr) (o : Int) (r : RStr), splitFree o s = true →
    o + depthDelta s = 0 →
    arrowSplit o (s ++ ' ' :: '-' :: '>' :: r) = (s ++ [' '], r) := by
  intro s
  induction s with
  | nil =>
    intro o r _ hd
    have ho : o = 0 := by simpa [depthDelta] using hd
    subst ho
    rw [List.nil_append,
      arrowSplit_cons_other 0 ' ' ('-' :: '>' :: r) (by decide) (by decide)
        (by rintro ⟨-, htk⟩; simp at htk),
      arrowSplit_cons_hit 0 '-' ('>' :: r) (by decide) (by decide)
        ⟨rfl, by simp⟩]
    simp
  | cons c s ih =>
    intro o r h hd
    by_cases h1 : c = '('
    · subst h1
      rw [show splitFree o ('(' :: s) = splitFree (o + 1) s from by
        rw [splitFree, if_pos rfl]] at h
      have hd' : o + 1 + depthDelta s = 0 := by
        rw [depthDelta_cons] at hd
        simp at hd
        omega
      rw [List.cons_append, arrowSplit_cons_open, ih (o + 1) r h hd']
      rfl
    · by_cases h2 : c = ')'
      · subst h2
        rw [show splitFree o (')' :: s) = splitFree (o - 1) s from by
          rw [splitFree, if_neg h1, if_pos rfl]] at h
        have hd' : o - 1 + depthDelta s = 0 := by
          rw [depthDelta_cons, if_neg h1, if_pos rfl] at hd
          omega
        rw [List.cons_append, arrowSplit_cons_close, ih (o - 1) r h hd']
        rfl
      · rw [splitFree, if_neg h1, if_neg h2] at h
        split at h
        · cases h
        · next h3 =>
          have hd' : o + depthDelta s = 0 := by
            rw [depthDelta_cons, if_neg h1, if_neg h2] at hd
            omega
          have h3' : ¬(o = 0 ∧ (c :: (s ++ ' ' :: '-' :: '>' :: r)).take 2 = ['-', '>']) := by
            rintro ⟨ho, htk⟩
            cases s with
            | nil =>
              simp at htk
            | cons x s' =>
              refine h3 ⟨ho, ?_⟩
              simp only [List.cons_append, List.take_succ_cons, List.cons.injEq] at htk ⊢
              exact ⟨htk.1, by simpa using htk.2.1⟩
          rw [List.cons_append, arrowSplit_cons_other o c _ h1 h2 h3', ih o r h hd']
          rfl

theorem arrowSplit_structure : ∀ (s : RStr) (o : Int),
    ((arrowSplit o s).1 = s ∧ (arrowSplit o s).2 = []) ∨
    (s = (arrowSplit o s).1 ++ '-' :: '>' :: (arrowSplit o s).2 ∧
      o + depthDelta (arrowSplit o s).1 = 0) := by
  intro s
  induction s with
  | nil => intro o; left; exact ⟨rfl, rfl⟩
  | cons c rest ih =>
    intro o
    by_cases h1 : c = '('
    · subst h1
      rw [arrowSplit_cons_open]
      rcases ih (o + 1) with ⟨ha, hb⟩ | ⟨ha, hb⟩
      · left
        exact ⟨by rw [ha], by rw [hb]⟩
      · right
        constructor
        · conv_lhs => rw [show ('(' :: rest : RStr) = '(' :: rest from rfl, ha]
          rfl
        · rw [depthDelta_cons, if_pos rfl]
          omega
    · by_cases h2 : c = ')'
      · subst h2
        rw [arrowSplit_cons_close]
        rcases ih (o - 1) with ⟨ha, hb⟩ | ⟨ha, hb⟩
        · left
          exact ⟨by rw [ha], by rw [hb]⟩
        · right
          constructor
          · conv_lhs => rw [show (')' :: rest : RStr) = ')' :: rest from rfl, ha]
            rfl
          · rw [depthDelta_cons, if_neg h1, if_pos rfl]
            omega
      · by_cases h3 : o = 0 ∧ (c :: rest).take 2 = ['-', '>']
        · rw [arrowSplit_cons_hit o c rest h1 h2 h3]
          right
          obtain ⟨ho, htk⟩ := h3
          simp only [List.take_succ_cons, List.cons.injEq] at htk
          obtain ⟨hc, htk1⟩ := htk
          rw [List.take_one] at htk1
          cases hh : rest.head? with
          | none => rw [hh] at htk1; exact absurd htk1 (by simp)
          | some x =>
            rw [hh] at htk1
            have hx : x = '>' := by simpa using htk1
            subst hx
            have hrest : rest = '>' :: rest.tail := by
              cases rest with
              | nil => simp at hh
              | cons y t => simp at hh; rw [hh]; rfl
            constructor
            · conv_lhs => rw [hrest]
              subst hc
              simp [List.drop_one]
            · simpa [depthDelta] using ho
        · rw [arrowSplit_cons_other o c rest h1 h2 h3]
          rcases ih o with ⟨ha, hb⟩ | ⟨ha, hb⟩
          · left
            exact ⟨by rw [ha], by rw [hb]⟩
          · right
            constructor
            · conv_lhs => rw [show (c :: rest : RStr) = c :: rest from rfl, ha]
              rfl
            · rw [depthDelta_cons, if_neg h1, if_neg h2]
              omega

theorem arrowSplit_length (o : Int) (s : RStr) :
    (arrowSplit o s).1.length + (arrowSplit o s).2.length ≤ s.length := by
  rcases arrowSplit_structure s o with ⟨h1, h2⟩ | ⟨h1, -⟩
  · rw [h1, h2]; simp
  · conv_rhs => rw [h1]
    simp only [List.length_append, List.length_cons]
    omega

theorem arrowSplit_snd_lt (o : Int) (s : RStr) (h : s ≠ []) :
    (arrowSplit o s).2.length < s.length := by
  rcases arrowSplit_structure s o with ⟨-, h2⟩ | ⟨h1, -⟩
  · rw [h2]
    simpa using List.length_pos.mpr h
  · conv_rhs => rw [h1]
    simp only [List.length_append, List.length_cons]
    omega

/-! ## The iterator, with sufficient fuel -/

theorem arrowItemsF_succ (m : Nat) (s : RStr) :
    arrowItemsF (m + 1) s =
      if trim s = [] then []
      else (arrowSplit 0 s).1 :: arrowItemsF m ((arrowSplit 0 s).2) := rfl

theorem arrowItemsF_stable :
    ∀ (n : Nat) (s : RStr), s.length < n → arrowItemsF n s = arrowItems s := by
  intro n
  induction n using Nat.strong_induction_on with
  | _ n ih =>
    intro s hs
    cases n with
    | zero => omega
    | succ k =>
      rw [arrowItems, arrowItemsF_succ k s, arrowItemsF_succ s.length s]
      by_cases ht : trim s = []
      · simp [ht]
      · have hne : s ≠ [] := by rintro rfl; exact ht rfl
        have hlt := arrowSplit_snd_lt 0 s hne
        have hpos : 0 < s.length := List.length_pos.mpr hne
        rw [if_neg ht, if_neg ht]
        congr 1
        rw [ih k (by omega) _ (by omega), ih s.length (by omega) _ (by omega)]

theorem arrowItems_eq (s : RStr) :
    arrowItems s =
      if trim s = [] then []
      else (arrowSplit 0 s).1 :: arrowItems ((arrowSplit 0 s).2) := by
  rw [arrowItems, arrowItemsF_succ s.length s]
  by_cases ht : trim s = []
  · simp [ht]
  · have hne : s ≠ [] := by rintro rfl; exact ht rfl
    have hlt := arrowSplit_snd_lt 0 s hne
    rw [if_neg ht, if_neg ht, arrowItemsF_stable s.length _ (by omega)]

theorem mem_arrowItemsF_length_le :
    ∀ (n : Nat) (s m : RStr), m ∈ arrowItemsF n s → m.length ≤ s.length := by
  intro n
  induction n with
  | zero => intro s m h; simp [arrowItemsF] at h
  | succ k ih =>
    intro s m h
    rw [arrowItemsF_succ] at h
    by_cases ht : trim s = []
    · rw [if_pos ht] at h; simp at h
    · rw [if_neg ht] at h
      have hne : s ≠ [] := by rintro rfl; exact ht rfl
      have hlen := arrowSplit_length 0 s
      have hlt := arrowSplit_snd_lt 0 s hne
      rcases List.mem_cons.mp h with rfl | hm
      · omega
      · have := ih _ _ hm
        omega

theorem mem_arrowItems_length_le {s m : RStr} (h : m ∈ arrowItems s) :
    m.length ≤ s.length :=
  mem_arrowItemsF_length_le (s.length + 1) s m h

/-! ## The parser, with sufficient fuel -/

theorem funBody_congr (r1 r2 : RStr → Option (Except Error HsType)) (t : RStr)
    (h : ∀ u, u.length ≤ t.length → r1 u = r2 u) : funBody r1 t = funBody r2 t := by
  unfold funBody
  have hmap : (arrowItems t).map r1 = (arrowItems t).map r2 :=
    List.map_congr_left (fun m hm => h m (mem_arrowItems_length_le hm))
  rw [hmap]

theorem funPtrArm_congr (r1 r2 : RStr → Option (Except Error HsType)) (r : RStr)
    (h : ∀ u, u.length ≤ r.length → r1 u = r2 u) : funPtrArm r1 r = funPtrArm r2 r := by
  have htr : (trim r).length ≤ r.length := trim_length_le r
  unfold funPtrArm
  split
  · next t1 heq =>
    have ht1 : t1.length + 1 = (trim r).length := by rw [heq]; rfl
    split
    · rfl
    · next inner hinner =>
      have : t1 = inner ++ [')'] := stripSuffixParen_some hinner
      have hi : inner.length + 1 = t1.length := by rw [this]; simp
      exact funBody_congr r1 r2 inner (fun u hu => h u (by omega))
  · exact funBody_congr r1 r2 (trim r) (fun u hu => h u (by omega))

theorem fromStrCore_congr (r1 r2 : RStr → Option (Except Error HsType)) (s : RStr)
    (h : ∀ u, u.length < s.length → r1 u = r2 u) :
    fromStrCore r1 s = fromStrCore r2 s := by
  unfold fromStrCore
  split
  · rfl
  split
  · rfl
  next hnil =>
  have hpos : 0 < s.length := List.length_pos.mpr hnil
  split
  · rfl
  next p1 hp1 =>
  have hs1 := congrArg List.length (sliceAt_append s 1 p1 hp1)
  rw [List.length_append] at hs1
  split
  · next hpar =>
    split
    · rfl
    · next inner hstrip =>
      apply h
      have e1 := congrArg List.length (stripSuffixParen_some hstrip)
      rw [List.length_append] at e1
      have e3 : p1.1.length = 1 := by rw [hpar]; rfl
      simp at e1
      omega
  · split
    · rfl
    next hb2 =>
    split
    · rfl
    next p2 hp2 =>
    have hs2 := congrArg List.length (sliceAt_append s 2 p2 hp2)
    rw [List.length_append] at hs2
    split
    · next hio =>
      have e3 : p2.1.length = 2 := by rw [hio]; rfl
      rw [h p2.2 (by omega)]
    · split
      · rfl
      next hb3 =>
      split
      · rfl
      next p3 hp3 =>
      have hs3 := congrArg List.length (sliceAt_append s 3 p3 hp3)
      rw [List.length_append] at hs3
      split
      · next hptr =>
        have e3 : p3.1.length = 3 := by rw [hptr]; rfl
        rw [h p3.2 (by omega)]
      · split
        · rfl
        next hb6 =>
        split
        · rfl
        next p6 hp6 =>
        have hs6 := congrArg List.length (sliceAt_append s 6 p6 hp6)
        rw [List.length_append] at hs6
        split
        · next hfp =>
          have e3 : p6.1.length = 6 := by rw [hfp]; rfl
          exact funPtrArm_congr r1 r2 p6.2 (fun u hu => h u (by omega))
        · rfl

theorem fromStrBody_congr (r1 r2 : RStr → Option (Except Error HsType)) (s0 : RStr)
    (h : ∀ u, u.length < s0.length → r1 u = r2 u) :
    fromStrBody r1 s0 = fromStrBody r2 s0 := by
  unfold fromStrBody
  exact fromStrCore_congr r1 r2 (trim s0)
    (fun u hu => h u (lt_of_lt_of_le hu (trim_length_le s0)))

theorem fromStrF_succ (n : Nat) (s0 : RStr) :
    fromStrF (n + 1) s0 = fromStrBody (fromStrF n) s0 := rfl

theorem fromStrF_stable :
    ∀ (n : Nat) (s : RStr), s.length < n → fromStrF n s = fromStr s := by
  intro n
  induction n using Nat.strong_induction_on with
  | _ n ih =>
    intro s hs
    cases n with
    | zero => omega
    | succ k =>
      rw [fromStrF_succ, fromStr, fromStrF_succ]
      apply fromStrBody_congr
      intro u hu
      rw [ih k (by omega) u (by omega), ih s.length (by omega) u hu]

/-- The unfolding equation of `from_str`: one parsing step, with the
recursive occurrences being `fromStr` itself. -/
theorem fromStr_eq (s : RStr) : fromStr s = fromStrBody fromStr s := by
  rw [fromStr, fromStrF_succ]
  apply fromStrBody_congr
  intro u hu
  exact fromStrF_stable s.length u hu

theorem fromStr_eq_core (s : RStr) : fromStr s = fromStrCore fromStr (trim s) :=
  fromStr_eq s

/-- `from_str` only depends on its input through `trim`. -/
theorem fromStr_trim_congr {a b : RStr} (h : trim a = trim b) :
    fromStr a = fromStr b := by
  rw [fromStr_eq_core a, fromStr_eq_core b, h]

/-! ## Branch lemmas: one symbolic parsing step per syntactic form -/

theorem fromStr_unit (s : RStr) (h : trim s = "()".toList) :
    fromStr s = some (Except.ok HsType.Empty) := by
  rw [fromStr_eq_core, h]
  rfl

theorem fromStr_paren_strip (s r inner : RStr) (h : trim s = '(' :: r)
    (hne : ('(' :: r : RStr) ≠ "()".toList)
    (hstrip : stripSuffixParen r = some inner) :
    fromStr s = fromStr inner := by
  rw [fromStr_eq_core, h]
  unfold fromStrCore
  rw [if_neg hne, if_neg (by simp)]
  rw [show sliceAt ('(' :: r) 1 = some (['('], r) from by
    simp [sliceAt, lenUtf8]]
  dsimp only
  simp [hstrip]

theorem fromStr_paren_bad (s r : RStr) (h : trim s = '(' :: r)
    (hne : ('(' :: r : RStr) ≠ "()".toList)
    (hstrip : stripSuffixParen r = none) :
    fromStr s = some (Except.error Error.UnmatchedParenthesis) := by
  rw [fromStr_eq_core, h]
  unfold fromStrCore
  rw [if_neg hne, if_neg (by simp)]
  rw [show sliceAt ('(' :: r) 1 = some (['('], r) from by
    simp [sliceAt, lenUtf8]]
  dsimp only
  simp [hstrip]

theorem fromStr_io (s r : RStr) (h : trim s = 'I' :: 'O' :: r) :
    fromStr s = (fromStr r).map (Except.map HsType.Io) := by
  have hb2 : ¬ byteLen ('I' :: 'O' :: r) < 2 := by
    rw [byteLen_cons, byteLen_cons, show lenUtf8 'I' = 1 from rfl,
      show lenUtf8 'O' = 1 from rfl]
    omega
  rw [fromStr_eq_core, h]
  unfold fromStrCore
  rw [if_neg (by simp), if_neg (by simp)]
  rw [show sliceAt ('I' :: 'O' :: r) 1 = some (['I'], 'O' :: r) from by
    simp [sliceAt, lenUtf8]]
  dsimp only
  rw [if_neg (by decide), if_neg hb2]
  rw [show sliceAt ('I' :: 'O' :: r) 2 = some (['I', 'O'], r) from by
    simp [sliceAt, lenUtf8]]
  dsimp only
  simp

theorem fromStr_ptr (s r : RStr) (h : trim s = 'P' :: 't' :: 'r' :: r) :
    fromStr s = (fromStr r).map (Except.map HsType.Ptr) := by
  have hb2 : ¬ byteLen ('P' :: 't' :: 'r' :: r) < 2 := by
    rw [byteLen_cons, byteLen_cons, show lenUtf8 'P' = 1 from rfl,
      show lenUtf8 't' = 1 from rfl]
    omega
  have hb3 : ¬ byteLen ('P' :: 't' :: 'r' :: r) < 3 := by
    rw [byteLen_cons, byteLen_cons, byteLen_cons, show lenUtf8 'P' = 1 from rfl,
      show lenUtf8 't' = 1 from rfl, show lenUtf8 'r' = 1 from rfl]
    omega
  rw [fromStr_eq_core, h]
  unfold fromStrCore
  rw [if_neg (by simp), if_neg (by simp)]
  rw [show sliceAt ('P' :: 't' :: 'r' :: r) 1 = some (['P'], 't' :: 'r' :: r) from by
    simp [sliceAt, lenUtf8]]
  dsimp only
  rw [if_neg (by decide), if_neg hb2]
  rw [show sliceAt ('P' :: 't' :: 'r' :: r) 2 = some (['P', 't'], 'r' :: r) from by
    simp [sliceAt, lenUtf8]]
  dsimp only
  rw [if_neg (by decide), if_neg hb3]
  rw [show sliceAt ('P' :: 't' :: 'r' :: r) 3 = some (['P', 't', 'r'], r) from by
    simp [sliceAt, lenUtf8]]
  dsimp only
  simp

theorem fromStr_funptr (s r : RStr)
    (h : trim s = 'F' :: 'u' :: 'n' :: 'P' :: 't' :: 'r' :: r) :
    fromStr s = funPtrArm fromStr r := by
  have e1 : lenUtf8 'F' = 1 := rfl
  have e2 : lenUtf8 'u' = 1 := rfl
  have e3 : lenUtf8 'n' = 1 := rfl
  have e4 : lenUtf8 'P' = 1 := rfl
  have e5 : lenUtf8 't' = 1 := rfl
  have e6 : lenUtf8 'r' = 1 := rfl
  have hb2 : ¬ byteLen ('F' :: 'u' :: 'n' :: 'P' :: 't' :: 'r' :: r) < 2 := by
    simp only [byteLen_cons, e1, e2, e3, e4, e5, e6]
    omega
  have hb3 : ¬ byteLen ('F' :: 'u' :: 'n' :: 'P' :: 't' :: 'r' :: r) < 3 := by
    simp only [byteLen_cons, e1, e2, e3, e4, e5, e6]
    omega
  have hb6 : ¬ byteLen ('F' :: 'u' :: 'n' :: 'P' :: 't' :: 'r' :: r) < 6 := by
    simp only [byteLen_cons, e1, e2, e3, e4, e5, e6]
    omega
  rw [fromStr_eq_core, h]
  unfold fromStrCore
  rw [if_neg (by simp), if_neg (by simp)]
  rw [show sliceAt ('F' :: 'u' :: 'n' :: 'P' :: 't' :: 'r' :: r) 1 =
      some (['F'], 'u' :: 'n' :: 'P' :: 't' :: 'r' :: r) from by
    simp [sliceAt, lenUtf8]]
  dsimp only
  rw [if_neg (by decide), if_neg hb2]
  rw [show sliceAt ('F' :: 'u' :: 'n' :: 'P' :: 't' :: 'r' :: r) 2 =
      some (['F', 'u'], 'n' :: 'P' :: 't' :: 'r' :: r) from by
    simp [sliceAt, lenUtf8]]
  dsimp only
  rw [if_neg (by decide), if_neg hb3]
  rw [show sliceAt ('F' :: 'u' :: 'n' :: 'P' :: 't' :: 'r' :: r) 3 =
      some (['F', 'u', 'n'], 'P' :: 't' :: 'r' :: r) from by
    simp [sliceAt, lenUtf8]]
  dsimp only
  rw [if_neg (by decide), if_neg hb6]
  rw [show sliceAt ('F' :: 'u' :: 'n' :: 'P' :: 't' :: 'r' :: r) 6 =
      some (['F', 'u', 'n', 'P', 't', 'r'], r) from by
    simp [sliceAt, lenUtf8]]
  dsimp only
  simp

/-! ## Size and structure facts about `HsType` and `render` -/

theorem hsSize_pos : ∀ (t : HsType), 1 ≤ hsSize t := by
  intro t
  cases t <;> simp [hsSize]

theorem hsSize_mem_le (ts : List HsType) :
    ∀ t ∈ ts, hsSize t ≤ hsSizeList ts := by
  induction ts with
  | nil => intro t h; cases h
  | cons x xs ih =>
    intro t h
    rcases List.mem_cons.mp h with rfl | hm
    · simp [hsSizeList]; omega
    · have := ih t hm
      simp [hsSizeList]; omega

theorem renderList_eq_map (ts : List HsType) : renderList ts = ts.map render := by
  induction ts with
  | nil => rfl
  | cons t ts ih => simp [renderList, ih]

theorem head?_append_ne_gt (x y : RStr) (hne : x ≠ []) (hx : x.head? ≠ some '>') :
    (x ++ y).head? ≠ some '>' := by
  cases x with
  | nil => exact absurd rfl hne
  | cons c t => simpa using hx

theorem joinArrow_delta :
    ∀ (rs : List RStr), (∀ r ∈ rs, depthDelta r = 0) →
      depthDelta (joinArrow rs) = 0 := by
  intro rs
  induction rs with
  | nil => intro _; rfl
  | cons r rs ih =>
    intro h
    cases rs with
    | nil => exact h r (by simp)
    | cons r2 rs' =>
      rw [show joinArrow (r :: r2 :: rs') = r ++ (" -> ".toList ++ joinArrow (r2 :: rs'))
          from rfl]
      rw [depthDelta_append, depthDelta_append]
      rw [h r (by simp), ih (fun u hu => h u (by simp [hu]))]
      rfl

theorem joinArrow_splitFree :
    ∀ (rs : List RStr),
      (∀ r ∈ rs, depthDelta r = 0 ∧ r.head? ≠ some '>' ∧
        ∀ o : Int, 0 ≤ o → splitFree o r = true) →
      ∀ o : Int, 1 ≤ o → splitFree o (joinArrow rs) = true := by
  intro rs
  induction rs with
  | nil => intro _ o _; rfl
  | cons r rs ih =>
    intro h o ho
    obtain ⟨hd, hh, hsf⟩ := h r (by simp)
    cases rs with
    | nil => exact hsf o (by omega)
    | cons r2 rs' =>
      rw [show joinArrow (r :: r2 :: rs') = r ++ (" -> ".toList ++ joinArrow (r2 :: rs'))
          from rfl]
      apply splitFree_append r _ (by simp) o (hsf o (by omega))
      rw [hd]
      rw [show (" -> ".toList ++ joinArrow (r2 :: rs') : RStr) =
          ' ' :: '-' :: '>' :: ' ' :: joinArrow (r2 :: rs') from rfl]
      have h1 : splitFree (o + 0) (' ' :: '-' :: '>' :: ' ' :: joinArrow (r2 :: rs')) =
          splitFree (o + 0) (joinArrow (r2 :: rs')) := by
        rw [splitFree, if_neg (by decide), if_neg (by decide),
          if_neg (by rintro ⟨h0, htk⟩; simp at htk)]
        rw [splitFree, if_neg (by decide), if_neg (by decide),
          if_neg (by rintro ⟨h0, htk⟩; omega)]
        rw [splitFree, if_neg (by decide), if_neg (by decide),
          if_neg (by rintro ⟨h0, htk⟩; simp at htk)]
        rw [splitFree, if_neg (by decide), if_neg (by decide),
          if_neg (by rintro ⟨h0, htk⟩; simp at htk)]
      rw [h1]
      exact ih (fun u hu => h u (by simp [hu])) (o + 0) (by omega)

theorem joinArrow_concat_head_ne_gt (rs : List RStr)
    (h : ∀ r ∈ rs, r ≠ [] ∧ r.head? ≠ some '>') :
    (joinArrow rs ++ [')']).head? ≠ some '>' := by
  cases rs with
  | nil => decide
  | cons r rs' =>
    obtain ⟨hne, hh⟩ := h r (by simp)
    cases rs' with
    | nil => exact head?_append_ne_gt r [')'] hne hh
    | cons r2 rs'' =>
      rw [show joinArrow (r :: r2 :: rs'') = r ++ (" -> ".toList ++ joinArrow (r2 :: rs''))
          from rfl, List.append_assoc]
      exact head?_append_ne_gt r _ hne hh

theorem splitFree_rparen (m : Int) : splitFree m [')'] = true := by
  rw [splitFree, if_neg (by decide), if_pos rfl]
  rfl

theorem render_good_aux :
    ∀ (n : Nat) (t : HsType), hsSize t ≤ n → RenderGood (render t) := by
  intro n
  induction n with
  | zero => intro t h; have := hsSize_pos t; omega
  | succ k ih =>
    intro t ht
    cases t with
    | CInt => exact ⟨by decide, by rfl, by rfl, by decide, fun o _ => by simp [splitFree]⟩
    | CChar => exact ⟨by decide, by rfl, by rfl, by decide, fun o _ => by simp [splitFree]⟩
    | CSChar => exact ⟨by decide, by rfl, by rfl, by decide, fun o _ => by simp [splitFree]⟩
    | CUChar => exact ⟨by decide, by rfl, by rfl, by decide, fun o _ => by simp [splitFree]⟩
    | CShort => exact ⟨by decide, by rfl, by rfl, by decide, fun o _ => by simp [splitFree]⟩
    | CUShort => exact ⟨by decide, by rfl, by rfl, by decide, fun o _ => by simp [splitFree]⟩
    | CUInt => exact ⟨by decide, by rfl, by rfl, by decide, fun o _ => by simp [splitFree]⟩
    | CLong => exact ⟨by decide, by rfl, by rfl, by decide, fun o _ => by simp [splitFree]⟩
    | CULong => exact ⟨by decide, by rfl, by rfl, by decide, fun o _ => by simp [splitFree]⟩
    | CLLong => exact ⟨by decide, by rfl, by rfl, by decide, fun o _ => by simp [splitFree]⟩
    | CULLong => exact ⟨by decide, by rfl, by rfl, by decide, fun o _ => by simp [splitFree]⟩
    | CBool => exact ⟨by decide, by rfl, by rfl, by decide, fun o _ => by simp [splitFree]⟩
    | CString => exact ⟨by decide, by rfl, by rfl, by decide, fun o _ => by simp [splitFree]⟩
    | CDouble => exact ⟨by decide, by rfl, by rfl, by decide, fun o _ => by simp [splitFree]⟩
    | CFloat => exact ⟨by decide, by rfl, by rfl, by decide, fun o _ => by simp [splitFree]⟩
    | Empty => exact ⟨by decide, by rfl, by rfl, by decide, fun o _ => by simp [splitFree]⟩
    | Ptr x =>
      have hx : RenderGood (render x) := by
        apply ih
        have : hsSize (HsType.Ptr x) = hsSize x + 1 := rfl
        omega
      obtain ⟨hne, htrim, hdd, hhd, hsf⟩ := hx
      have hshape : render (HsType.Ptr x) =
          'P' :: (('t' :: 'r' :: ' ' :: '(' :: render x) ++ [')']) := by
        rw [show render (HsType.Ptr x) = "Ptr (".toList ++ render x ++ [')'] from rfl]
        simp
      refine ⟨?_, ?_, ?_, ?_, ?_⟩
      · rw [hshape]; simp
      · rw [hshape]
        rw [show ('t' :: 'r' :: ' ' :: '(' :: render x : RStr) =
            ('t' :: 'r' :: ' ' :: '(' :: render x) from rfl] at *
        exact trim_cons_concat 'P' ')' _ (by decide) (by decide)
      · rw [show render (HsType.Ptr x) = "Ptr (".toList ++ (render x ++ [')']) from by
          rw [show render (HsType.Ptr x) = "Ptr (".toList ++ render x ++ [')'] from rfl]
          simp]
        rw [depthDelta_append, depthDelta_append, hdd]
        rfl
      · rw [hshape]; simp
      · intro o ho
        rw [show render (HsType.Ptr x) = "Ptr (".toList ++ (render x ++ [')']) from by
          rw [show render (HsType.Ptr x) = "Ptr (".toList ++ render x ++ [')'] from rfl]
          simp]
        apply splitFree_append "Ptr (".toList (render x ++ [')'])
          (head?_append_ne_gt _ _ hne hhd) o (by simp [splitFree])
        rw [show depthDelta ("Ptr (".toList) = 1 from rfl]
        apply splitFree_append (render x) [')'] (by decide) (o + 1)
          (hsf (o + 1) (by omega))
        rw [hdd]
        exact splitFree_rparen _
    | Io x =>
      have hx : RenderGood (render x) := by
        apply ih
        have : hsSize (HsType.Io x) = hsSize x + 1 := rfl
        omega
      obtain ⟨hne, htrim, hdd, hhd, hsf⟩ := hx
      have hshape : render (HsType.Io x) =
          'I' :: (('O' :: ' ' :: '(' :: render x) ++ [')']) := by
        rw [show render (HsType.Io x) = "IO (".toList ++ render x ++ [')'] from rfl]
        simp
      refine ⟨?_, ?_, ?_, ?_, ?_⟩
      · rw [hshape]; simp
      · rw [hshape]
        exact trim_cons_concat 'I' ')' _ (by decide) (by decide)
      · rw [show render (HsType.Io x) = "IO (".toList ++ (render x ++ [')']) from by
          rw [show render (HsType.Io x) = "IO (".toList ++ render x ++ [')'] from rfl]
          simp]
        rw [depthDelta_append, depthDelta_append, hdd]
        rfl
      · rw [hshape]; simp
      · intro o ho
        rw [show render (HsType.Io x) = "IO (".toList ++ (render x ++ [')']) from by
          rw [show render (HsType.Io x) = "IO (".toList ++ render x ++ [')'] from rfl]
          simp]
        apply splitFree_append "IO (".toList (render x ++ [')'])
          (head?_append_ne_gt _ _ hne hhd) o (by simp [splitFree])
        rw [show depthDelta ("IO (".toList) = 1 from rfl]
        apply splitFree_append (render x) [')'] (by decide) (o + 1)
          (hsf (o + 1) (by omega))
        rw [hdd]
        exact splitFree_rparen _
    | FunPtr ts =>
      have hts : ∀ u ∈ ts, RenderGood (render u) := by
        intro u hu
        apply ih
        have h1 := hsSize_mem_le ts u hu
        have h2 : hsSize (HsType.FunPtr ts) = hsSizeList ts + 1 := rfl
        omega
      have hmap : ∀ r ∈ renderList ts, RenderGood r := by
        rw [renderList_eq_map]
        intro r hr
        obtain ⟨u, hu, rfl⟩ := List.mem_map.mp hr
        exact hts u hu
      have hshape : render (HsType.FunPtr ts) =
          'F' :: (('u' :: 'n' :: 'P' :: 't' :: 'r' :: '(' :: joinArrow (renderList ts))
            ++ [')']) := by
        rw [show render (HsType.FunPtr ts) =
            "FunPtr(".toList ++ joinArrow (renderList ts) ++ [')'] from rfl]
        simp
      have hjd : depthDelta (joinArrow (renderList ts)) = 0 :=
        joinArrow_delta _ (fun r hr => (hmap r hr).2.2.1)
      refine ⟨?_, ?_, ?_, ?_, ?_⟩
      · rw [hshape]; simp
      · rw [hshape]
        exact trim_cons_concat 'F' ')' _ (by decide) (by decide)
      · rw [show render (HsType.FunPtr ts) =
            "FunPtr(".toList ++ (joinArrow (renderList ts) ++ [')']) from by
          rw [show render (HsType.FunPtr ts) =
              "FunPtr(".toList ++ joinArrow (renderList ts) ++ [')'] from rfl]
          simp]
        rw [depthDelta_append, depthDelta_append, hjd]
        rfl
      · rw [hshape]; simp
      · intro o ho
        rw [show render (HsType.FunPtr ts) =
            "FunPtr(".toList ++ (joinArrow (renderList ts) ++ [')']) from by
          rw [show render (HsType.FunPtr ts) =
              "FunPtr(".toList ++ joinArrow (renderList ts) ++ [')'] from rfl]
          simp]
        apply splitFree_append "FunPtr(".toList (joinArrow (renderList ts) ++ [')'])
          (joinArrow_concat_head_ne_gt _ (fun r hr => ⟨(hmap r hr).1, (hmap r hr).2.2.2.1⟩))
          o (by simp [splitFree])
        rw [show depthDelta ("FunPtr(".toList) = 1 from rfl]
        apply splitFree_append (joinArrow (renderList ts)) [')'] (by decide) (o + 1)
          (joinArrow_splitFree _
            (fun r hr => ⟨(hmap r hr).2.2.1, (hmap r hr).2.2.2.1, (hmap r hr).2.2.2.2⟩)
            (o + 1) (by omega))
        rw [hjd]
        exact splitFree_rparen _

theorem render_good (t : HsType) : RenderGood (render t) :=
  render_good_aux (hsSize t) t le_rfl

/-! ## The scanner on a rendered argument list -/

theorem trim_append_ne_nil (pre r rest : RStr) (htrim : trim r = r) (hne : r ≠ []) :
    trim (pre ++ (r ++ rest)) ≠ [] := by
  intro h
  rw [trim_eq_nil_iff] at h
  simp only [List.all_append, Bool.and_eq_true] at h
  have : trim r = [] := (trim_eq_nil_iff r).mpr h.2.1
  rw [htrim] at this
  exact hne this

theorem arrowItems_join :
    ∀ (rs : List RStr) (pre : RStr), rs ≠ [] →
      pre.all isRustWs = true →
      (∀ r ∈ rs, splitFree 0 r = true ∧ depthDelta r = 0 ∧ trim r = r ∧ r ≠ [] ∧
        r.head? ≠ some '>') →
      (arrowItems (pre ++ joinArrow rs)).map trim = rs := by
  intro rs
  induction rs with
  | nil => intro pre h; exact absurd rfl h
  | cons r rs' ih =>
    intro pre _ hpre hr
    obtain ⟨hsf, hdd, htrim, hne, hhd⟩ := hr r (by simp)
    have hsfp : splitFree 0 pre = true := splitFree_of_allWs pre hpre 0
    have hddp : depthDelta pre = 0 := depthDelta_of_allWs pre hpre
    have hsf2 : splitFree 0 (pre ++ r) = true := by
      apply splitFree_append pre r hhd 0 hsfp
      rw [hddp]
      simpa using hsf
    have hdd2 : (0 : Int) + depthDelta (pre ++ r) = 0 := by
      rw [depthDelta_append, hddp, hdd]
      ring
    cases rs' with
    | nil =>
      rw [show joinArrow [r] = r from rfl]
      rw [arrowItems_eq]
      have htne : trim (pre ++ r) ≠ [] := by
        rw [trim_ws_front pre r hpre, htrim]; exact hne
      rw [if_neg htne, arrowSplit_noSplit 0 _ hsf2]
      rw [show arrowItems ([] : RStr) = [] from rfl]
      simp only [List.map_cons, List.map_nil]
      rw [trim_ws_front pre r hpre, htrim]
    | cons r2 rs'' =>
      have hja : pre ++ joinArrow (r :: r2 :: rs'') =
          (pre ++ r) ++ (' ' :: '-' :: '>' :: (' ' :: joinArrow (r2 :: rs''))) := by
        rw [show joinArrow (r :: r2 :: rs'') =
            r ++ (" -> ".toList ++ joinArrow (r2 :: rs'')) from rfl]
        rw [show (" -> ".toList ++ joinArrow (r2 :: rs'') : RStr) =
            ' ' :: '-' :: '>' :: (' ' :: joinArrow (r2 :: rs'')) from rfl]
        rw [List.append_assoc]
      rw [hja, arrowItems_eq]
      have htne : trim ((pre ++ r) ++ ' ' :: '-' :: '>' :: (' ' :: joinArrow (r2 :: rs''))) ≠ [] := by
        rw [List.append_assoc]
        exact trim_append_ne_nil pre r _ htrim hne
      rw [if_neg htne, arrowSplit_calc (pre ++ r) 0 _ hsf2 hdd2]
      simp only [List.map_cons]
      have hfst : trim ((pre ++ r) ++ [' ']) = r := by
        rw [trim_ws_suffix _ [' '] (by decide), trim_ws_front pre r hpre, htrim]
      rw [hfst]
      have htail := ih [' '] (by simp) (by decide)
        (fun u hu => hr u (by simp [hu]))
      rw [show (' ' :: joinArrow (r2 :: rs'') : RStr) = [' '] ++ joinArrow (r2 :: rs'')
          from rfl]
      rw [htail]

/-! ## Collecting parsed items -/

theorem collectResults_cons_ok (t : HsType) (rest : List (Option (Except Error HsType))) :
    collectResults (some (Except.ok t) :: rest) =
      match collectResults rest with
      | none => none
      | some (Except.error e) => some (Except.error e)
      | some (Except.ok ts) => some (Except.ok (t :: ts)) := rfl

theorem collectResults_of_items :
    ∀ (items : List RStr) (ts : List HsType),
      items.map trim = renderList ts →
      (∀ t ∈ ts, fromStr (render t) = some (Except.ok t)) →
      collectResults (items.map fromStr) = some (Except.ok ts) := by
  intro items
  induction items with
  | nil =>
    intro ts h _
    cases ts with
    | nil => rfl
    | cons t ts' => simp [renderList] at h
  | cons m items' ih =>
    intro ts h hok
    cases ts with
    | nil => simp [renderList] at h
    | cons t ts' =>
      simp only [List.map_cons, renderList, List.cons.injEq] at h
      obtain ⟨h1, h2⟩ := h
      have hm : fromStr m = some (Except.ok t) := by
        have hg := (render_good t).2.1
        rw [fromStr_trim_congr (a := m) (b := render t) (by rw [h1, hg])]
        exact hok t (by simp)
      rw [List.map_cons, hm, collectResults_cons_ok,
        ih ts' h2 (fun u hu => hok u (by simp [hu]))]

/-! ## Unfolding the `FunPtr` arm -/

theorem funPtrArm_strip (rec : RStr → Option (Except Error HsType)) (r t1 inner : RStr)
    (h : trim r = '(' :: t1) (hstrip : stripSuffixParen t1 = some inner) :
    funPtrArm rec r = funBody rec inner := by
  unfold funPtrArm
  rw [h]
  split
  · next t1' heq =>
    injection heq with h1 h2
    subst h2
    rw [hstrip]
  · next hno => exact absurd rfl (hno t1)

theorem funBody_ok (rec : RStr → Option (Except Error HsType)) (t : RStr)
    (ts : List HsType) (hne : ts ≠ [])
    (hcoll : collectResults ((arrowItems t).map rec) = some (Except.ok ts)) :
    funBody rec t = some (Except.ok (HsType.FunPtr ts)) := by
  unfold funBody
  rw [hcoll]
  dsimp only
  rw [if_neg (by simpa using hne)]

/-! ## The round-trip theorem -/

theorem noCStringList_mem (ts : List HsType) (h : noCStringList ts = true) :
    ∀ u ∈ ts, noCString u = true := by
  induction ts with
  | nil => intro u hu; cases hu
  | cons x xs ih =>
    rw [show noCStringList (x :: xs) = (noCString x && noCStringList xs) from rfl] at h
    rw [Bool.and_eq_true] at h
    intro u hu
    rcases List.mem_cons.mp hu with rfl | hm
    · exact h.1
    · exact ih h.2 u hm

theorem wfFunList_mem (ts : List HsType) (h : wfFunList ts = true) :
    ∀ u ∈ ts, wfFun u = true := by
  induction ts with
  | nil => intro u hu; cases hu
  | cons x xs ih =>
    rw [show wfFunList (x :: xs) = (wfFun x && wfFunList xs) from rfl] at h
    rw [Bool.and_eq_true] at h
    intro u hu
    rcases List.mem_cons.mp hu with rfl | hm
    · exact h.1
    · exact ih h.2 u hm

theorem renderList_ne_nil (ts : List HsType) (h : ts ≠ []) : renderList ts ≠ [] := by
  cases ts with
  | nil => exact absurd rfl h
  | cons t ts' => simp [renderList]

theorem roundtrip_aux :
    ∀ (n : Nat) (t : HsType), hsSize t ≤ n → noCString t = true → wfFun t = true →
      fromStr (render t) = some (Except.ok t) := by
  intro n
  induction n with
  | zero =>
    intro t h _ _
    have := hsSize_pos t
    omega
  | succ k ih =>
    intro t ht hnc hwf
    cases t with
    | CInt => rfl
    | CChar => rfl
    | CSChar => rfl
    | CUChar => rfl
    | CShort => rfl
    | CUShort => rfl
    | CUInt => rfl
    | CLong => rfl
    | CULong => rfl
    | CLLong => rfl
    | CULLong => rfl
    | CBool => rfl
    | CString => exact absurd hnc (by decide)
    | CDouble => rfl
    | CFloat => rfl
    | Empty => rfl
    | Ptr x =>
      have hx : fromStr (render x) = some (Except.ok x) := by
        apply ih x ?_ (by simpa [noCString] using hnc) (by simpa [wfFun] using hwf)
        have : hsSize (HsType.Ptr x) = hsSize x + 1 := rfl
        omega
      obtain ⟨hne, htrim, hdd, hhd, hsf⟩ := render_good x
      have h1 : trim (render (HsType.Ptr x)) =
          'P' :: 't' :: 'r' :: (' ' :: '(' :: (render x ++ [')'])) := by
        rw [(render_good (HsType.Ptr x)).2.1]
        rw [show render (HsType.Ptr x) = "Ptr (".toList ++ render x ++ [')'] from rfl]
        simp
      rw [fromStr_ptr _ _ h1]
      have h2 : trim (' ' :: '(' :: (render x ++ [')'])) = '(' :: (render x ++ [')']) := by
        rw [show (' ' :: '(' :: (render x ++ [')']) : RStr) =
            [' '] ++ ('(' :: (render x ++ [')'])) from rfl]
        rw [trim_ws_front [' '] _ (by decide)]
        exact trim_cons_concat '(' ')' (render x) (by decide) (by decide)
      have h3 : ('(' :: (render x ++ [')']) : RStr) ≠ "()".toList := by
        intro hcontra
        injection hcontra with _ h'
        have hlen := congrArg List.length h'
        simp at hlen
        exact hne hlen
      rw [fromStr_paren_strip _ _ (render x) h2 h3 (stripSuffixParen_concat (render x))]
      rw [hx]
      rfl
    | Io x =>
      have hx : fromStr (render x) = some (Except.ok x) := by
        apply ih x ?_ (by simpa [noCString] using hnc) (by simpa [wfFun] using hwf)
        have : hsSize (HsType.Io x) = hsSize x + 1 := rfl
        omega
      obtain ⟨hne, htrim, hdd, hhd, hsf⟩ := render_good x
      have h1 : trim (render (HsType.Io x)) =
          'I' :: 'O' :: (' ' :: '(' :: (render x ++ [')'])) := by
        rw [(render_good (HsType.Io x)).2.1]
        rw [show render (HsType.Io x) = "IO (".toList ++ render x ++ [')'] from rfl]
        simp
      rw [fromStr_io _ _ h1]
      have h2 : trim (' ' :: '(' :: (render x ++ [')'])) = '(' :: (render x ++ [')']) := by
        rw [show (' ' :: '(' :: (render x ++ [')']) : RStr) =
            [' '] ++ ('(' :: (render x ++ [')'])) from rfl]
        rw [trim_ws_front [' '] _ (by decide)]
        exact trim_cons_concat '(' ')' (render x) (by decide) (by decide)
      have h3 : ('(' :: (render x ++ [')']) : RStr) ≠ "()".toList := by
        intro hcontra
        injection hcontra with _ h'
        have hlen := congrArg List.length h'
        simp at hlen
        exact hne hlen
      rw [fromStr_paren_strip _ _ (render x) h2 h3 (stripSuffixParen_concat (render x))]
      rw [hx]
      rfl
    | FunPtr ts =>
      have hwf' : ts ≠ [] ∧ wfFunList ts = true := by
        rw [show wfFun (HsType.FunPtr ts) = (!ts.isEmpty && wfFunList ts) from rfl] at hwf
        rw [Bool.and_eq_true] at hwf
        refine ⟨?_, hwf.2⟩
        have := hwf.1
        simpa using this
      have hnc' : noCStringList ts = true := by
        rw [show noCString (HsType.FunPtr ts) = noCStringList ts from rfl] at hnc
        exact hnc
      have hih : ∀ u ∈ ts, fromStr (render u) = some (Except.ok u) := by
        intro u hu
        apply ih u ?_ (noCStringList_mem ts hnc' u hu) (wfFunList_mem ts hwf'.2 u hu)
        have h1 := hsSize_mem_le ts u hu
        have h2 : hsSize (HsType.FunPtr ts) = hsSizeList ts + 1 := rfl
        omega
      have hgood : ∀ r ∈ renderList ts, RenderGood r := by
        rw [renderList_eq_map]
        intro r hr
        obtain ⟨u, hu, rfl⟩ := List.mem_map.mp hr
        exact render_good u
      have h1 : trim (render (HsType.FunPtr ts)) =
          'F' :: 'u' :: 'n' :: 'P' :: 't' :: 'r' ::
            ('(' :: (joinArrow (renderList ts) ++ [')'])) := by
        rw [(render_good (HsType.FunPtr ts)).2.1]
        rw [show render (HsType.FunPtr ts) =
            "FunPtr(".toList ++ joinArrow (renderList ts) ++ [')'] from rfl]
        simp
      rw [fromStr_funptr _ _ h1]
      have h2 : trim ('(' :: (joinArrow (renderList ts) ++ [')'])) =
          '(' :: (joinArrow (renderList ts) ++ [')']) :=
        trim_cons_concat '(' ')' _ (by decide) (by decide)
      rw [funPtrArm_strip fromStr _ _ (joinArrow (renderList ts)) h2
        (stripSuffixParen_concat _)]
      apply funBody_ok fromStr _ ts hwf'.1
      apply collectResults_of_items
      · have hj := arrowItems_join (renderList ts) [] (renderList_ne_nil ts hwf'.1)
          (by decide)
          (fun r hr => by
            obtain ⟨ha, hb, hc, hd, he⟩ := hgood r hr
            exact ⟨he 0 le_rfl, hc, hb, ha, hd⟩)
        exact hj
      · exact hih

theorem roundtrip (t : HsType) (hnc : noCString t = true) (hwf : wfFun t = true) :
    fromStr (render t) = some (Except.ok t) :=
  roundtrip_aux (hsSize t) t le_rfl hnc hwf

/-! ## Facts about the projection -/

theorem quote_funPtr_eq (ts : List HsType) :
    quote (HsType.FunPtr ts) =
      match quoteList ts with
      | none => none
      | some qs =>
        match qs.getLast? with
        | none => none
        | some ret => some (RustType.funPtr qs.dropLast ret) := rfl

theorem quoteList_cons_eq (t : HsType) (ts : List HsType) :
    quoteList (t :: ts) =
      match quote t with
      | none => none
      | some q =>
        match quoteList ts with
        | none => none
        | some qs => some (q :: qs) := rfl

theorem quoteList_concat_some (l : List HsType) (x : HsType) (ql : List RustType)
    (qx : RustType) (hl : quoteList l = some ql) (hx : quote x = some qx) :
    quoteList (l ++ [x]) = some (ql ++ [qx]) := by
  induction l generalizing ql with
  | nil =>
    cases hl
    rw [List.nil_append, quoteList_cons_eq, hx]
    rfl
  | cons y l' ih =>
    rw [quoteList_cons_eq] at hl
    rw [List.cons_append, quoteList_cons_eq]
    cases hy : quote y with
    | none => rw [hy] at hl; cases hl
    | some qy =>
      rw [hy] at hl
      cases hl' : quoteList l' with
      | none => rw [hl'] at hl; cases hl
      | some ql' =>
        rw [hl'] at hl
        cases hl
        rw [ih ql' hl']
        rfl

theorem quoteList_isSome (ts : List HsType)
    (h : ∀ u ∈ ts, (quote u).isSome = true) :
    ∃ qs, quoteList ts = some qs ∧ qs.length = ts.length := by
  induction ts with
  | nil => exact ⟨[], rfl, rfl⟩
  | cons t ts' ih =>
    obtain ⟨q, hq⟩ := Option.isSome_iff_exists.mp (h t (by simp))
    obtain ⟨qs', hqs', hlen⟩ := ih (fun u hu => h u (by simp [hu]))
    refine ⟨q :: qs', ?_, by simp [hlen]⟩
    rw [quoteList_cons_eq, hq, hqs']

theorem quote_isSome_aux :
    ∀ (n : Nat) (t : HsType), hsSize t ≤ n → wfFun t = true →
      (quote t).isSome = true := by
  intro n
  induction n with
  | zero =>
    intro t h _
    have := hsSize_pos t
    omega
  | succ k ih =>
    intro t ht hwf
    cases t with
    | CInt => rfl
    | CChar => rfl
    | CSChar => rfl
    | CUChar => rfl
    | CShort => rfl
    | CUShort => rfl
    | CUInt => rfl
    | CLong => rfl
    | CULong => rfl
    | CLLong => rfl
    | CULLong => rfl
    | CBool => rfl
    | CString => rfl
    | CDouble => rfl
    | CFloat => rfl
    | Empty => rfl
    | Ptr x =>
      have hx : (quote x).isSome = true := by
        apply ih x ?_ (by simpa [wfFun] using hwf)
        have : hsSize (HsType.Ptr x) = hsSize x + 1 := rfl
        omega
      rw [show quote (HsType.Ptr x) = (quote x).map RustType.constPtr from rfl]
      simpa using hx
    | Io x =>
      have hx : (quote x).isSome = true := by
        apply ih x ?_ (by simpa [wfFun] using hwf)
        have : hsSize (HsType.Io x) = hsSize x + 1 := rfl
        omega
      rw [show quote (HsType.Io x) = quote x from rfl]
      exact hx
    | FunPtr ts =>
      have hwf' : ts ≠ [] ∧ wfFunList ts = true := by
        rw [show wfFun (HsType.FunPtr ts) = (!ts.isEmpty && wfFunList ts) from rfl] at hwf
        rw [Bool.and_eq_true] at hwf
        exact ⟨by simpa using hwf.1, hwf.2⟩
      have hmem : ∀ u ∈ ts, (quote u).isSome = true := by
        intro u hu
        apply ih u ?_ (wfFunList_mem ts hwf'.2 u hu)
        have h1 := hsSize_mem_le ts u hu
        have h2 : hsSize (HsType.FunPtr ts) = hsSizeList ts + 1 := rfl
        omega
      obtain ⟨qs, hqs, hlen⟩ := quoteList_isSome ts hmem
      have hqsne : qs ≠ [] := by
        intro hcontra
        rw [hcontra] at hlen
        exact hwf'.1 (List.length_eq_zero.mp hlen.symm)
      rcases List.eq_nil_or_concat qs with rfl | ⟨ql, qx, rfl⟩
      · exact absurd rfl hqsne
      · rw [quote_funPtr_eq, hqs]
        simp

theorem funPtrArm_strip_bad (rec : RStr → Option (Except Error HsType)) (r t1 : RStr)
    (h : trim r = '(' :: t1) (hstrip : stripSuffixParen t1 = none) :
    funPtrArm rec r = some (Except.error Error.UnmatchedParenthesis) := by
  unfold funPtrArm
  rw [h]
  split
  · next t1' heq =>
    injection heq with h1 h2
    subst h2
    rw [hstrip]
  · next hno => exact absurd rfl (hno t1)

/-! ## The claims -/

/-- C1 counterexample: the claim fails as stated.  `HsType::FunPtr(vec![])`
is constructible and does not use the `CString` sugar, it renders as
`"FunPtr()"`, and parsing that back returns `Err(FunPtrWithoutTypeArgument)`
rather than the original value. -/
theorem c1_roundtrip_counterexample :
    noCString (HsType.FunPtr []) = true ∧
    fromStr (render (HsType.FunPtr [])) =
      some (Except.error Error.FunPtrWithoutTypeArgument) ∧
    fromStr (render (HsType.FunPtr [])) ≠ some (Except.ok (HsType.FunPtr [])) := by
  refine ⟨rfl, rfl, ?_⟩
  rw [show fromStr (render (HsType.FunPtr [])) =
      some (Except.error Error.FunPtrWithoutTypeArgument) from rfl]
  intro h
  injection h with h1
  cases h1

/-- C1 (amended): for every constructible `HsType` value `t` that does not use
the `CString` (`TextHandle`) sugar and in which every `FunPtr` node carries at
least one element, parsing the rendered text of `t` succeeds and returns a
value structurally equal to `t`. -/
theorem c1_roundtrip (t : HsType) (hnc : noCString t = true) (hwf : wfFun t = true) :
    fromStr (render t) = some (Except.ok t) :=
  roundtrip t hnc hwf

/-- Witness for C1: the amended round-trip at a concrete nested value. -/
theorem c1_roundtrip_witness :
    noCString (HsType.FunPtr [HsType.Ptr HsType.CInt, HsType.Empty]) = true ∧
    wfFun (HsType.FunPtr [HsType.Ptr HsType.CInt, HsType.Empty]) = true ∧
    fromStr (render (HsType.FunPtr [HsType.Ptr HsType.CInt, HsType.Empty])) =
      some (Except.ok (HsType.FunPtr [HsType.Ptr HsType.CInt, HsType.Empty])) :=
  ⟨rfl, rfl, c1_roundtrip (HsType.FunPtr [HsType.Ptr HsType.CInt, HsType.Empty]) rfl rfl⟩

/-- C2: the claim that `from_str` is total (never aborts) is contradicted by
the code: on the non-ASCII input `"é"` (one character, two UTF-8 bytes) the
slice `&s[..1]` falls inside a character and panics, which the model renders
as `none`.  The spec requires a classified error value instead. -/
theorem c2_panic_on_multibyte :
    fromStr "é".toList = none ∧ byteLen "é".toList = 2 ∧ ("é".toList).length = 1 :=
  ⟨rfl, rfl, rfl⟩

/-- C3: the `FunPtr` body is split on `"->"` only at parenthesis-nesting
depth exactly `0` (depth `+1` per `'('`, `-1` per `')'`): whenever the
scanner splits, the consumed prefix has net depth `0`; and the concrete
nested example parses to a two-element `FunPtr` whose first element is a
two-element `FunPtr`, not to three elements. -/
theorem c3_scanner_depth0 :
    (∀ (s m r : RStr), arrowSplit 0 s = (m, r) →
      (m = s ∧ r = []) ∨ (s = m ++ '-' :: '>' :: r ∧ depthDelta m = 0)) ∧
    fromStr "FunPtr (FunPtr(CInt -> CInt) -> CDouble)".toList =
      some (Except.ok (HsType.FunPtr
        [HsType.FunPtr [HsType.CInt, HsType.CInt], HsType.CDouble])) := by
  constructor
  · intro s m r h
    have hstr := arrowSplit_structure s 0
    rw [h] at hstr
    rcases hstr with ⟨h1, h2⟩ | ⟨h1, h2⟩
    · exact Or.inl ⟨h1, h2⟩
    · exact Or.inr ⟨h1, by simpa using h2⟩
  · rfl

/-- Witness for C3: the general split property applied at a concrete input. -/
theorem c3_scanner_depth0_witness :
    (['a'] = "a->b".toList ∧ (['b'] : RStr) = []) ∨
      ("a->b".toList = ['a'] ++ '-' :: '>' :: ['b'] ∧ depthDelta ['a'] = 0) :=
  c3_scanner_depth0.1 "a->b".toList ['a'] ['b'] rfl

/-- C4: for every `HsType::FunPtr` with a non-empty element list, `quote`
produces an `unsafe extern "C" fn` pointer type whose parameter types are the
projections of all elements but the last, and whose return type is the
projection of the last element. -/
theorem c4_funptr_projection (ts : List HsType) (lt : HsType)
    (args : List RustType) (ret : RustType)
    (hlast : ts.getLast? = some lt)
    (hargs : quoteList ts.dropLast = some args)
    (hret : quote lt = some ret) :
    quote (HsType.FunPtr ts) = some (RustType.funPtr args ret) := by
  rcases List.eq_nil_or_concat ts with rfl | ⟨l, a, rfl⟩
  · cases hlast
  · simp only [List.concat_eq_append] at *
    rw [List.getLast?_concat] at hlast
    injection hlast with hlast
    subst hlast
    rw [List.dropLast_concat] at hargs
    rw [quote_funPtr_eq, quoteList_concat_some l _ args ret hargs hret]
    simp

/-- Witness for C4: the projection of `FunPtr [CInt, CDouble]`. -/
theorem c4_funptr_projection_witness :
    ([HsType.CInt, HsType.CDouble].getLast? = some HsType.CDouble) ∧
    quoteList [HsType.CInt, HsType.CDouble].dropLast = some [RustType.c_int] ∧
    quote HsType.CDouble = some RustType.c_double ∧
    quote (HsType.FunPtr [HsType.CInt, HsType.CDouble]) =
      some (RustType.funPtr [RustType.c_int] RustType.c_double) :=
  ⟨rfl, rfl, rfl,
    c4_funptr_projection [HsType.CInt, HsType.CDouble] HsType.CDouble
      [RustType.c_int] RustType.c_double rfl rfl rfl⟩

/-- C5 counterexample: the claim fails as stated.  `"CInt)"` contains an
unmatched `')'` (net depth `-1`) yet `from_str` returns
`UnsupportedHsType("CInt)")`, not `UnmatchedParenthesis`. -/
theorem c5_unmatched_counterexample :
    depthDelta "CInt)".toList = -1 ∧
    fromStr "CInt)".toList =
      some (Except.error (Error.UnsupportedHsType "CInt)".toList)) ∧
    fromStr "CInt)".toList ≠ some (Except.error Error.UnmatchedParenthesis) := by
  refine ⟨rfl, rfl, ?_⟩
  rw [show fromStr "CInt)".toList =
      some (Except.error (Error.UnsupportedHsType "CInt)".toList)) from rfl]
  intro h
  injection h with h1
  injection h1 with h2
  cases h2

/-- C5 (amended): `from_str` fails with `UnmatchedParenthesis` exactly in the
two code paths that strip a leading `'('`: when the trimmed input starts with
`'('` (and is not `"()"`) but does not end with `')'`, and when a `FunPtr`
body starts with `'('` but does not end with `')'`.  A stray unmatched `')'`
elsewhere is reported as `UnsupportedHsType` instead. -/
theorem c5_unmatched_paren :
    (∀ s r, trim s = '(' :: r → ('(' :: r : RStr) ≠ "()".toList →
      stripSuffixParen r = none →
      fromStr s = some (Except.error Error.UnmatchedParenthesis)) ∧
    (∀ s r t1, trim s = 'F' :: 'u' :: 'n' :: 'P' :: 't' :: 'r' :: r →
      trim r = '(' :: t1 → stripSuffixParen t1 = none →
      fromStr s = some (Except.error Error.UnmatchedParenthesis)) := by
  constructor
  · intro s r h hne hstrip
    exact fromStr_paren_bad s r h hne hstrip
  · intro s r t1 h hr hstrip
    rw [fromStr_funptr s r h]
    exact funPtrArm_strip_bad fromStr r t1 hr hstrip

/-- Witness for C5: both unmatched-parenthesis paths at concrete inputs. -/
theorem c5_unmatched_paren_witness :
    fromStr "(CInt".toList = some (Except.error Error.UnmatchedParenthesis) ∧
    fromStr "FunPtr (CInt".toList = some (Except.error Error.UnmatchedParenthesis) :=
  ⟨c5_unmatched_paren.1 "(CInt".toList "CInt".toList rfl (by decide) rfl,
   c5_unmatched_paren.2 "FunPtr (CInt".toList " (CInt".toList "CInt".toList
     rfl rfl rfl⟩

/-- C6: the `cfg_if!`-selected `ReprHs` impls for the C `long` family: on a
64-bit non-Windows target, `c_long`/`c_ulong` map to `CLong`/`CULong` (and no
impl is generated for the `long long` names); on every other target,
`c_longlong`/`c_ulonglong` map to `CLLong`/`CULLong` (and no impl is
generated for the `long` names).  The selection depends only on the build
target, never on run-time data. -/
theorem c6_long_mapping (w64 win : Bool) :
    (reprHs ⟨w64, win⟩ RustDesc.c_long, reprHs ⟨w64, win⟩ RustDesc.c_ulong,
      reprHs ⟨w64, win⟩ RustDesc.c_longlong, reprHs ⟨w64, win⟩ RustDesc.c_ulonglong) =
    (if w64 && !win then
      (some HsType.CLong, some HsType.CULong, none, none)
    else
      (none, none, some HsType.CLLong, some HsType.CULLong)) := by
  cases w64 <;> cases win <;> rfl

/-- C7: effect erasure in projection: `quote` of `IO t` is identical to
`quote` of `t` for every `t`. -/
theorem c7_io_erasure (t : HsType) : quote (HsType.Io t) = quote t := rfl

/-- C8: the `ArrowIter` sequence is finite: `next` returns `None` exactly
when the remaining text is empty or whitespace-only (and, the state being
left untouched, permanently so), and every successful `next` consumes part of
the remaining text strictly: the new remainder is strictly shorter, and the
old remainder is the matched slice followed (possibly after the consumed
`"->"` token) by the new remainder, so no consumed text is revisited. -/
theorem c8_scanner_termination (s : RStr) :
    (arrowNext s = none ↔ s.all isRustWs = true) ∧
    (∀ m r, arrowNext s = some (m, r) →
      r.length < s.length ∧ (m ++ r = s ∨ m ++ '-' :: '>' :: r = s)) := by
  constructor
  · rw [arrowNext]
    by_cases ht : trim s = []
    · rw [if_pos ht]
      simp [(trim_eq_nil_iff s).mp ht]
    · rw [if_neg ht]
      constructor
      · intro h; simp at h
      · intro h; exact absurd ((trim_eq_nil_iff s).mpr h) ht
  · intro m r h
    rw [arrowNext] at h
    by_cases ht : trim s = []
    · rw [if_pos ht] at h; cases h
    · rw [if_neg ht] at h
      injection h with h
      have hne : s ≠ [] := by rintro rfl; exact ht rfl
      have hlt := arrowSplit_snd_lt 0 s hne
      rw [h] at hlt
      refine ⟨hlt, ?_⟩
      have hstr := arrowSplit_structure s 0
      rw [h] at hstr
      rcases hstr with ⟨h1, h2⟩ | ⟨h1, h2⟩
      · left
        simp only at h1 h2
        rw [h2, List.append_nil]
        exact h1
      · right; exact h1.symm

/-- Witness for C8: the strict-consumption part applied at a concrete input. -/
theorem c8_scanner_termination_witness :
    (['b'] : RStr).length < "a->b".toList.length ∧
      (['a'] ++ ['b'] = "a->b".toList ∨
        ['a'] ++ '-' :: '>' :: ['b'] = "a->b".toList) :=
  (c8_scanner_termination "a->b".toList).2 ['a'] ['b'] rfl

/-- C9: the parser accepts a one-element `FunPtr` form, both bare and
parenthesized, even though the spec grammar asks for at least two
arrow-separated elements; only the zero-element forms are rejected, with
`FunPtrWithoutTypeArgument`. -/
theorem c9_single_element_funptr :
    fromStr "FunPtr CInt".toList = some (Except.ok (HsType.FunPtr [HsType.CInt])) ∧
    fromStr "FunPtr (CInt)".toList = some (Except.ok (HsType.FunPtr [HsType.CInt])) ∧
    fromStr "FunPtr".toList = some (Except.error Error.FunPtrWithoutTypeArgument) ∧
    fromStr "FunPtr ()".toList = some (Except.error Error.FunPtrWithoutTypeArgument) :=
  ⟨rfl, rfl, rfl, rfl⟩

/-- C10: `quote` is total exactly under the non-empty-`FunPtr` invariant: it
succeeds on every value whose `FunPtr` nodes are all non-empty, while the
constructible value `HsType::FunPtr(vec![])` makes `types.last().unwrap()`
panic (modelled as `none`). -/
theorem c10_quote_totality :
    (∀ t : HsType, wfFun t = true → (quote t).isSome = true) ∧
    quote (HsType.FunPtr []) = none :=
  ⟨fun t hwf => quote_isSome_aux (hsSize t) t le_rfl hwf, rfl⟩

/-- Witness for C10: totality applied at a concrete well-formed value. -/
theorem c10_quote_totality_witness :
    wfFun (HsType.FunPtr [HsType.CInt]) = true ∧
    (quote (HsType.FunPtr [HsType.CInt])).isSome = true :=
  ⟨rfl, c10_quote_totality.1 (HsType.FunPtr [HsType.CInt]) rfl⟩

end HsBindgen
